import Mathlib

/-!
Shallow embedding of `src/db_tools/influx_lp_writer.py` (function `write_files`
and the helpers it relies on), together with theorems settling the claims about
its column-mapping, missing-value normalization, chunking and line-protocol
encoding behaviour.

Modelling conventions:
* A pandas `DataFrame` is a column-name list plus row-major cell lists.
* A cell is `Val.na` (NaN), `Val.str s` (any other value, already rendered the
  way Python's `str()` renders it; the numeric columns of this pipeline are
  float columns, so for example `fillna(0)` on them produces `0.0`), or
  `Val.time micros` for the `created` column (a pandas `Timestamp`, modelled by
  its epoch value in whole microseconds; `Timestamp.timestamp()` is then
  `micros / 10^6` seconds and the Python `str(...).split('.')[0]` truncation is
  natural-number division by `10^6`).
* Python's in-place mutation of the caller's frame (`df.rename(..., inplace=True)`,
  `df[col] = ...`) is modelled by `write_files` returning the final state of
  the frame next to the list of written files.
* Exceptions (`KeyError`, the `ValueError` numpy raises for zero sections,
  `ZeroDivisionError`, `AttributeError`/`NameError` on rows without a usable
  `created` value) are modelled with `Except PyError`.
* Writing a file is modelled by returning its name and the list of written
  lines (each line string still carries its trailing newline, exactly as the
  string passed to `file.write` does).
-/

namespace GshpInflux

/-- Cell values of a table: `na` is a missing value (NaN); `str s` is any other
field value, carried in its Python `str()` rendering; `time micros` is a pandas
`Timestamp` holding `micros` whole microseconds since the epoch. -/
inductive Val where
  | na : Val
  | str (s : String) : Val
  | time (micros : Nat) : Val
deriving DecidableEq, Repr

/-- Python's `str(value)` for a cell: `str(nan)` is `"nan"`, a rendered value is
itself, and a `Timestamp` gets some textual form (never used for the `created`
column, which is excluded from the field list). -/
def strVal : Val → String
  | .na => "nan"
  | .str s => s
  | .time m => "Timestamp(" ++ Nat.repr m ++ ")"

/-- A pandas `DataFrame`: shared column-name list and row-major cells. -/
structure DataFrame where
  columns : List String
  rows : List (List Val)
deriving DecidableEq, Repr

/-- Every row has exactly one cell per column (pandas keeps rows aligned). -/
def DataFrame.WF (df : DataFrame) : Prop :=
  ∀ r ∈ df.rows, r.length = df.columns.length

instance (df : DataFrame) : Decidable df.WF := by
  unfold DataFrame.WF; infer_instance

/-- One written line-protocol file: its name and the lines written to it. -/
structure LPFile where
  name : String
  lines : List String
deriving DecidableEq, Repr

/-- The Python exceptions the embedded code can raise. -/
inductive PyError where
  | keyError (k : String)
  | valueError (msg : String)
  | zeroDivisionError
  | attributeError (msg : String)
deriving DecidableEq, Repr

/-- `df[name]` read access: the cells of the (first) column called `name`,
or `none` (a `KeyError` at use sites) when there is no such column. -/
def DataFrame.getColumn (df : DataFrame) (name : String) : Option (List Val) :=
  match df.columns.findIdx? (· == name) with
  | none => none
  | some i => some (df.rows.map (fun r => r[i]?.getD .na))

/-- `df[name] = vals` on an existing column: overwrite that column's cells,
leaving the column names and all other cells unchanged. -/
def DataFrame.setColumn (df : DataFrame) (name : String) (vals : List Val) : DataFrame :=
  match df.columns.findIdx? (· == name) with
  | none => df
  | some i => ⟨df.columns, (df.rows.zip vals).map (fun p => p.1.set i p.2)⟩

/-- `df.rename(mapper=column_mapping, inplace=True, axis=1)`: every column name
is sent through the mapping dict, names absent from the dict are unchanged;
the cells are untouched. -/
def renameDf (df : DataFrame) (mapping : List (String × String)) : DataFrame :=
  ⟨df.columns.map (fun c => (mapping.lookup c).getD c), df.rows⟩

/-- `fillna(0)` on a float column (the columns of this pipeline hold floats,
since they contain NaN) produces the value `0.0`. -/
def zeroVal : Val := .str "0.0"

/-- One cell of `df['heat_flow_rate'].fillna(0)`. -/
def fillnaZero (v : Val) : Val :=
  if v = .na then zeroVal else v

/-- `if 'heat_flow_rate' in column_mapping.values(): df['heat_flow_rate'] =
df['heat_flow_rate'].fillna(0)` — a `KeyError` when the guard holds but the
renamed frame has no such column. -/
def fillHeatFlowStep (df : DataFrame) (mapping : List (String × String)) :
    Except PyError DataFrame :=
  if (mapping.map Prod.snd).contains "heat_flow_rate" then
    match df.getColumn "heat_flow_rate" with
    | none => .error (.keyError "heat_flow_rate")
    | some col => .ok (df.setColumn "heat_flow_rate" (col.map fillnaZero))
  else .ok df

/-- Forward fill: a missing cell takes `last`, the most recent non-missing
value seen so far (`.na` when none has been seen). -/
def ffillAux (last : Val) : List Val → List Val
  | [] => []
  | x :: xs => if x = .na then last :: ffillAux last xs else x :: ffillAux x xs

/-- `series.fillna(method='ffill')`. -/
def ffillList (l : List Val) : List Val := ffillAux .na l

/-- `df['outdoor_temperature'] = df['outdoor_temperature'].fillna(method='ffill')`
— a `KeyError` when the renamed frame has no `outdoor_temperature` column. -/
def fillOutdoorStep (df : DataFrame) : Except PyError DataFrame :=
  match df.getColumn "outdoor_temperature" with
  | none => .error (.keyError "outdoor_temperature")
  | some col => .ok (df.setColumn "outdoor_temperature" (ffillList col))

/-- The rename-and-fill prefix of `write_files` (lines 77-80 of the source). -/
def normalizeSteps (df : DataFrame) (mapping : List (String × String)) :
    Except PyError DataFrame :=
  match fillHeatFlowStep (renameDf df mapping) mapping with
  | .error e => .error e
  | .ok d2 => fillOutdoorStep d2

/-- `line_reference = ",".join([db_name, "=".join(['equipment', uuid])])`. -/
def lineRef (db_name uuid : String) : String :=
  db_name ++ "," ++ ("equipment" ++ "=" ++ uuid)

/-- The `(column, str(row[column]))` pairs of the row's field list: every column
except `'created'`, in column order, the value in its `str()` rendering. -/
def fieldPairs (columns : List String) (row : List Val) : List (String × String) :=
  (columns.zip row).filterMap
    (fun p => if p.1 = "created" then none else some (p.1, strVal p.2))

/-- Python's `sep.join(parts)`. -/
def joinSep (sep : String) : List String → String
  | [] => ""
  | [m] => m
  | m :: ms => m ++ sep ++ joinSep sep ms

/-- `data_elements = ','.join(measures)` where each measure is
`"=".join([column, str(row[column])])`. -/
def fieldSegment (columns : List String) (row : List Val) : String :=
  joinSep "," ((fieldPairs columns row).map (fun p => p.1 ++ "=" ++ p.2))

/-- `timestamp = str(row.created.timestamp()).split('.')[0]`: the epoch seconds
of the row's `created` cell, truncated to a whole number. Rows without a usable
`created` value raise (`AttributeError`/`NameError`). -/
def tsOf (columns : List String) (row : List Val) : Except PyError String :=
  match columns.findIdx? (· == "created") with
  | none => .error (.attributeError "created")
  | some i =>
    match row[i]? with
    | some (.time t) => .ok (Nat.repr (t / 1000000))
    | _ => .error (.attributeError "timestamp")

/-- `lp_line = " ".join([line_reference, data_elements, timestamp, '\n'])` —
note the fourth join element: the newline is a separate list element, so the
join places a space between the timestamp and the newline. -/
def encodeRow (ref : String) (columns : List String) (row : List Val) :
    Except PyError String :=
  match tsOf columns row with
  | .error e => .error e
  | .ok ts => .ok (ref ++ " " ++ fieldSegment columns row ++ " " ++ ts ++ " " ++ "\n")

/-- Map a fallible function over a list, stopping at the first raised error
(the Python loop raises out of the surrounding function). -/
def mapExcept (f : α → Except ε β) : List α → Except ε (List β)
  | [] => .ok []
  | x :: xs =>
    match f x with
    | .error e => .error e
    | .ok y =>
      match mapExcept f xs with
      | .error e => .error e
      | .ok ys => .ok (y :: ys)

/-- `"_".join(['../temp_files/cgb_ges_data/' + db_name, slug, 'chunk_%d.txt' % i])`. -/
def chunkFileName (db_name slug : String) (i : Nat) : String :=
  joinSep "_"
    ["../temp_files/cgb_ges_data/" ++ db_name, slug, "chunk_" ++ Nat.repr i ++ ".txt"]

/-- Section sizes of `numpy.array_split` on `R` elements and `k` sections: the
first `R % k` sections get `R / k + 1` elements, the rest get `R / k`. -/
def npSplitSizes (R k : Nat) : List Nat :=
  List.replicate (R % k) (R / k + 1) ++ List.replicate (k - R % k) (R / k)

/-- Cut a list into consecutive pieces of the given sizes. -/
def splitBySizes : List α → List Nat → List (List α)
  | _, [] => []
  | l, n :: ns => l.take n :: splitBySizes (l.drop n) ns

/-- `numpy.array_split(l, k)`: raises `ValueError` when `k = 0`, otherwise the
contiguous split into `k` sections with numpy's size policy. -/
def arraySplit (l : List α) (k : Nat) : Except PyError (List (List α)) :=
  if k = 0 then .error (.valueError "number sections must be larger than 0.")
  else .ok (splitBySizes l (npSplitSizes l.length k))

/-- The chunk-writing loop: chunk `i` becomes the file
`chunkFileName db_name slug i` whose lines are the encoded rows of the chunk. -/
def encodeChunks (ref : String) (cols : List String) (db_name slug : String) :
    Nat → List (List (List Val)) → Except PyError (List LPFile)
  | _, [] => .ok []
  | i, chunk :: rest =>
    match mapExcept (encodeRow ref cols) chunk with
    | .error e => .error e
    | .ok ls =>
      match encodeChunks ref cols db_name slug (i + 1) rest with
      | .error e => .error e
      | .ok fs => .ok (⟨chunkFileName db_name slug i, ls⟩ :: fs)

/-- `write_files(db_name, uuid, df, column_mapping, chunk_size, slug)`:
rename and fill in place, compute `chunks = int(len(df)/chunk_size)`
(`ZeroDivisionError` when `chunk_size = 0`), split with `np.array_split`,
and write one file per chunk.  The returned frame is the final (mutated)
state of the caller's `df`. -/
def write_files (db_name uuid : String) (df : DataFrame)
    (column_mapping : List (String × String)) (chunk_size : Nat) (slug : String) :
    Except PyError (DataFrame × List LPFile) :=
  match normalizeSteps df column_mapping with
  | .error e => .error e
  | .ok df3 =>
    if chunk_size = 0 then .error .zeroDivisionError
    else
      match arraySplit df3.rows (df3.rows.length / chunk_size) with
      | .error e => .error e
      | .ok chunkList =>
        match encodeChunks (lineRef db_name uuid) df3.columns db_name slug 0 chunkList with
        | .error e => .error e
        | .ok files => .ok (df3, files)

/-- Split a character list on a separator character; `[[]]` on the empty list,
mirroring Python's `''.split(sep) == ['']`. -/
def splitOnChar (sep : Char) : List Char → List (List Char)
  | [] => [[]]
  | a :: rest =>
    match splitOnChar sep rest with
    | [] => [[]]
    | g :: gs => if a = sep then [] :: g :: gs else (a :: g) :: gs

/-- Parse the field segment of a line-protocol line: split on commas, keep the
`name=value` pieces as pairs. -/
def parseFields (fieldseg : List Char) : List (String × String) :=
  (splitOnChar ',' fieldseg).filterMap (fun f =>
    match splitOnChar '=' f with
    | [n, v] => some (String.mk n, String.mk v)
    | _ => none)

/-- Parse one generated line by splitting on the wire format's delimiters:
spaces between the three segments (tolerating the trailing newline element the
writer emits), a comma inside the tag segment, `=` between names and values.
Returns `(db_name, equipment uuid, field pairs, timestamp string)`. -/
def parseLP (line : String) : Option (String × String × List (String × String) × String) :=
  match splitOnChar ' ' line.data with
  | [tagseg, fieldseg, ts, nl] =>
    if nl = ['\n'] then
      match splitOnChar ',' tagseg with
      | [db, eqseg] =>
        match splitOnChar '=' eqseg with
        | [ek, u] =>
          if ek = "equipment".data then
            some (String.mk db, String.mk u, parseFields fieldseg, String.mk ts)
          else none
        | _ => none
      | _ => none
    else none
  | _ => none

/-- The value a forward fill started at `last` carries after scanning `l`:
the last non-missing entry of `l`, or `last` when `l` is all missing. -/
def prevFill (last : Val) (l : List Val) : Val :=
  l.foldl (fun acc v => if v = .na then acc else v) last

/-- Extract the payload of a successful computation, with a fallback. -/
def okD (e : Except ε α) (d : α) : α :=
  match e with
  | .ok a => a
  | .error _ => d

/-! ### Concrete instances used by witnesses and counterexamples -/

/-- A four-row table in the shape this pipeline consumes: a vendor column to
rename, the `created` timestamps, and an `outdoor_temperature` column with one
missing value. -/
def tbl4 : DataFrame :=
  ⟨["ewt", "created", "outdoor_temperature"],
   [[.str "1.0", .time 1500000000000000, .str "5.0"],
    [.str "2.0", .time 1500000060500000, .na],
    [.str "3.0", .time 1500000120000000, .str "6.5"],
    [.str "4.0", .time 1500000180000000, .str "7.0"]]⟩

/-- The rename mapping used by the concrete tables. -/
def map1 : List (String × String) := [("ewt", "source_supplytemp")]

def run4 : Except PyError (DataFrame × List LPFile) :=
  write_files "otherm-data" "abc-123" tbl4 map1 2 "site1"

def out4 : DataFrame := (okD run4 (⟨[], []⟩, [])).1

def files4 : List LPFile := (okD run4 (⟨[], []⟩, [])).2

/-- A fifteen-row table for the uneven-partition policy (15 rows, chunk 8). -/
def tbl15 : DataFrame :=
  ⟨["ewt", "created", "outdoor_temperature"],
   (List.range 15).map
     (fun n => [.str (Nat.repr n), .time (1500000000000000 + n * 60000000), .str "5.0"])⟩

def run15 : Except PyError (DataFrame × List LPFile) :=
  write_files "otherm-data" "abc-123" tbl15 map1 8 "site9"

def out15 : DataFrame := (okD run15 (⟨[], []⟩, [])).1

def files15 : List LPFile := (okD run15 (⟨[], []⟩, [])).2

/-- A one-row table, below any realistic chunk size. -/
def tbl1 : DataFrame :=
  ⟨["ewt", "created", "outdoor_temperature"],
   [[.str "1.0", .time 1500000000000000, .str "5.0"]]⟩

def out1n : DataFrame := okD (normalizeSteps tbl1 map1) ⟨[], []⟩

/-- The spec's forward-fill example column. -/
def colFfx : List Val := [.na, .str "5.0", .na, .str "7.0"]

def tblFfx : DataFrame :=
  ⟨["created", "outdoor_temperature"],
   [[.time 1000000, .na],
    [.time 2000000, .str "5.0"],
    [.time 3000000, .na],
    [.time 4000000, .str "7.0"]]⟩

def outFfx : DataFrame := okD (fillOutdoorStep tblFfx) ⟨[], []⟩

/-- A table whose mapping sends a vendor column to `heat_flow_rate`. -/
def tblHf : DataFrame :=
  ⟨["heat_flow_1", "created", "outdoor_temperature"],
   [[.na, .time 1000000, .str "4.0"],
    [.str "3.5", .time 2000000, .na]]⟩

def mapHf : List (String × String) := [("heat_flow_1", "heat_flow_rate")]

def colHf : List Val := [.na, .str "3.5"]

def outHf : DataFrame := okD (normalizeSteps tblHf mapHf) ⟨[], []⟩

/-- A table that after renaming has no `outdoor_temperature` column. -/
def tblNoOut : DataFrame :=
  ⟨["ewt", "created"], [[.str "1.0", .time 1000000]]⟩

/-- Columns and rows for single-line encoding examples. -/
def colsEx : List String := ["a", "created"]

def rowEx : List Val := [.str "1.5", .time 1454768864000000]

def tsEx : String := "1454768864"

def lineEx : String := okD (encodeRow (lineRef "db" "u") colsEx rowEx) ""

/-- A row whose field value contains a space — a delimiter collision. -/
def rowBad : List Val := [.str "1 2", .time 5000000]

def lineBad : String := okD (encodeRow (lineRef "db" "u") colsEx rowBad) ""

def lineOt : String := okD (encodeRow (lineRef "otherm-data" "abc-123") colsEx rowEx) ""

/-! ### Basic lemmas about the embedded operations -/

theorem mapExcept_ok_length {f : α → Except ε β} {l : List α} {l' : List β}
    (h : mapExcept f l = .ok l') : l'.length = l.length := by
  induction l generalizing l' with
  | nil => cases h; rfl
  | cons x xs ih =>
    unfold mapExcept at h
    cases hx : f x with
    | error e => rw [hx] at h; cases h
    | ok y =>
      rw [hx] at h
      cases hxs : mapExcept f xs with
      | error e => rw [hxs] at h; cases h
      | ok ys =>
        rw [hxs] at h
        cases h
        simp [ih hxs]

theorem mapExcept_append {f : α → Except ε β} {xs ys : List α} {rs ts : List β}
    (hx : mapExcept f xs = .ok rs) (hy : mapExcept f ys = .ok ts) :
    mapExcept f (xs ++ ys) = .ok (rs ++ ts) := by
  induction xs generalizing rs with
  | nil => cases hx; simpa using hy
  | cons a as ih =>
    unfold mapExcept at hx ⊢
    cases ha : f a with
    | error e => rw [ha] at hx; cases hx
    | ok y =>
      rw [ha] at hx
      cases has : mapExcept f as with
      | error e => rw [has] at hx; cases hx
      | ok zs =>
        rw [has] at hx
        cases hx
        simp [ha, ih has]

theorem splitBySizes_length (l : List α) (ns : List Nat) :
    (splitBySizes l ns).length = ns.length := by
  induction ns generalizing l with
  | nil => rfl
  | cons n ns ih => simp [splitBySizes, ih]

theorem splitBySizes_flatten (l : List α) (ns : List Nat) :
    (splitBySizes l ns).flatten = l.take ns.sum := by
  induction ns generalizing l with
  | nil => simp [splitBySizes]
  | cons n ns ih =>
    simp only [splitBySizes, List.flatten_cons, ih, List.sum_cons, List.take_add]

theorem splitBySizes_map_length (l : List α) (ns : List Nat) (h : ns.sum ≤ l.length) :
    (splitBySizes l ns).map List.length = ns := by
  induction ns generalizing l with
  | nil => rfl
  | cons n ns ih =>
    simp only [List.sum_cons] at h
    have hn : n ≤ l.length := le_trans (Nat.le_add_right _ _) h
    have hns : ns.sum ≤ (l.drop n).length := by
      simp only [List.length_drop]
      omega
    simp [splitBySizes, List.length_take, Nat.min_eq_left hn, ih _ hns]

theorem npSplitSizes_sum (R k : Nat) : (npSplitSizes R k).sum = R := by
  rcases Nat.eq_zero_or_pos k with hk | hk
  · subst hk
    simp [npSplitSizes]
  · have hle : R % k ≤ k := (Nat.mod_lt R hk).le
    have h1 : k * (R / k) + R % k = R := Nat.div_add_mod R k
    have hm : (R % k) * (R / k) ≤ k * (R / k) := Nat.mul_le_mul_right _ hle
    simp only [npSplitSizes, List.sum_append, List.sum_replicate, smul_eq_mul]
    rw [Nat.mul_succ, Nat.sub_mul, Nat.add_right_comm, Nat.add_sub_cancel' hm]
    exact h1

theorem npSplitSizes_length (R k : Nat) (hk : k ≠ 0) : (npSplitSizes R k).length = k := by
  have hle : R % k ≤ k := (Nat.mod_lt R (Nat.pos_of_ne_zero hk)).le
  simp [npSplitSizes]
  omega

theorem npSplitSizes_mem (R k : Nat) (n : Nat) (h : n ∈ npSplitSizes R k) :
    n = R / k + 1 ∨ n = R / k := by
  simp only [npSplitSizes, List.mem_append, List.mem_replicate] at h
  rcases h with ⟨-, h⟩ | ⟨-, h⟩ <;> simp [h]

theorem arraySplit_pos {l : List α} {k : Nat} (hk : k ≠ 0) :
    arraySplit l k = .ok (splitBySizes l (npSplitSizes l.length k)) := by
  simp [arraySplit, hk]

theorem arraySplit_zero (l : List α) :
    arraySplit l 0 = .error (.valueError "number sections must be larger than 0.") := by
  simp [arraySplit]

/-! ### Forward-fill lemmas -/

theorem ffillAux_length (last : Val) (l : List Val) :
    (ffillAux last l).length = l.length := by
  induction l generalizing last with
  | nil => rfl
  | cons x xs ih =>
    unfold ffillAux
    by_cases hx : x = .na <;> simp [hx, ih]

theorem ffillList_length (l : List Val) : (ffillList l).length = l.length :=
  ffillAux_length .na l

theorem prevFill_append (last : Val) (a b : List Val) :
    prevFill last (a ++ b) = prevFill (prevFill last a) b :=
  List.foldl_append ..

theorem prevFill_all_na (last : Val) (l : List Val) (h : ∀ v ∈ l, v = .na) :
    prevFill last l = last := by
  induction l with
  | nil => rfl
  | cons x xs ih =>
    have hx : x = .na := h x (List.mem_cons_self ..)
    simp only [prevFill, List.foldl_cons, hx, if_pos rfl]
    exact ih (fun v hv => h v (List.mem_cons_of_mem _ hv))

theorem ffillAux_getD (l : List Val) (last : Val) (i : Nat) (hi : i < l.length) :
    (ffillAux last l).getD i .na =
      if l.getD i .na = .na then prevFill last (l.take i) else l.getD i .na := by
  induction l generalizing last i with
  | nil => simp at hi
  | cons x xs ih =>
    unfold ffillAux
    by_cases hx : x = .na
    · subst hx
      cases i with
      | zero => simp [prevFill]
      | succ n =>
        simp only [List.length_cons, Nat.succ_lt_succ_iff] at hi
        simp only [if_pos rfl, List.getD_cons_succ, List.take_succ_cons, prevFill,
          List.foldl_cons, if_pos rfl]
        exact ih last n hi
    · simp only [if_neg hx]
      cases i with
      | zero => simp [hx]
      | succ n =>
        simp only [List.length_cons, Nat.succ_lt_succ_iff] at hi
        simp only [List.getD_cons_succ, List.take_succ_cons, prevFill, List.foldl_cons,
          if_neg hx]
        exact ih x n hi

theorem ffillList_getD (l : List Val) (i : Nat) (hi : i < l.length) :
    (ffillList l).getD i .na =
      if l.getD i .na = .na then prevFill .na (l.take i) else l.getD i .na :=
  ffillAux_getD l .na i hi

/-- On a leading run of missing values the fill stays missing. -/
theorem ffillList_leading_na (l : List Val) (i : Nat) (hi : i < l.length)
    (hna : l.getD i .na = .na) (hlead : ∀ j, j < i → l.getD j .na = .na) :
    (ffillList l).getD i .na = .na := by
  rw [ffillList_getD l i hi, if_pos hna]
  apply prevFill_all_na
  intro v hv
  obtain ⟨j, hj, rfl⟩ := List.getElem_of_mem hv
  have hlt := hj
  rw [List.length_take] at hlt
  have hjlen : j < l.length := lt_of_lt_of_le hlt (min_le_right _ _)
  have hji : j < i := lt_of_lt_of_le hlt (min_le_left _ _)
  have := hlead j hji
  rwa [List.getElem_take, ← List.getD_eq_getElem _ .na hjlen]

/-- A missing value whose most recent preceding non-missing value sits at
index `j` takes that value. -/
theorem ffillList_most_recent (l : List Val) (i j : Nat) (hi : i < l.length)
    (hna : l.getD i .na = .na) (hj : j < i) (hjval : l.getD j .na ≠ .na)
    (hmid : ∀ m, j < m → m < i → l.getD m .na = .na) :
    (ffillList l).getD i .na = l.getD j .na := by
  rw [ffillList_getD l i hi, if_pos hna]
  have hjlen : j < l.length := lt_trans hj hi
  have htake : l.take i = l.take (j + 1) ++ (l.take i).drop (j + 1) := by
    have h1 : (l.take i).take (j + 1) = l.take (j + 1) := by
      rw [List.take_take]
      congr 1
      omega
    conv_lhs => rw [← List.take_append_drop (j + 1) (l.take i)]
    rw [h1]
  rw [htake, prevFill_append]
  have hstep : prevFill .na (l.take (j + 1)) = l.getD j .na := by
    rw [List.take_succ, prevFill_append]
    have hget : l[j]? = some (l.getD j .na) := by
      rw [List.getElem?_eq_getElem hjlen, List.getD_eq_getElem _ _ hjlen]
    rw [hget]
    simp only [Option.toList_some, prevFill, List.foldl_cons, List.foldl_nil,
      if_neg hjval]
  rw [hstep]
  apply prevFill_all_na
  intro v hv
  obtain ⟨m, hm, rfl⟩ := List.getElem_of_mem hv
  have hmlt : j + 1 + m < i := by
    have h1 := List.length_drop (j + 1) (l.take i)
    have h2 := List.length_take i l
    omega
  have hmem : ((l.take i).drop (j + 1))[m] = l.getD (j + 1 + m) .na := by
    rw [List.getElem_drop, List.getElem_take, List.getD_eq_getElem _ _ (by omega)]
  rw [hmem]
  exact hmid (j + 1 + m) (by omega) hmlt

/-! ### Column access lemmas -/

theorem getColumn_length {df : DataFrame} {name : String} {col : List Val}
    (h : df.getColumn name = some col) : col.length = df.rows.length := by
  unfold DataFrame.getColumn at h
  cases hidx : df.columns.findIdx? (· == name) with
  | none => rw [hidx] at h; cases h
  | some i =>
    rw [hidx] at h
    cases h
    simp

theorem getColumn_none_iff {df : DataFrame} {name : String} :
    df.getColumn name = none ↔ df.columns.findIdx? (· == name) = none := by
  unfold DataFrame.getColumn
  cases hidx : df.columns.findIdx? (· == name) <;> simp

theorem setColumn_columns (df : DataFrame) (name : String) (vals : List Val) :
    (df.setColumn name vals).columns = df.columns := by
  unfold DataFrame.setColumn
  cases df.columns.findIdx? (· == name) <;> rfl

theorem setColumn_rows_length (df : DataFrame) (name : String) (vals : List Val)
    (h : df.rows.length ≤ vals.length) :
    (df.setColumn name vals).rows.length = df.rows.length := by
  unfold DataFrame.setColumn
  cases df.columns.findIdx? (· == name) with
  | none => rfl
  | some i => simp; omega

theorem zip_set_get_self (rows : List (List Val)) (vals : List Val) (i : Nat)
    (hlen : vals.length = rows.length) (hr : ∀ r ∈ rows, i < r.length) :
    ((rows.zip vals).map (fun p => p.1.set i p.2)).map (fun r => r[i]?.getD .na) = vals := by
  induction rows generalizing vals with
  | nil =>
    cases vals with
    | nil => rfl
    | cons v vs => simp at hlen
  | cons r rs ih =>
    cases vals with
    | nil => simp at hlen
    | cons v vs =>
      simp only [List.length_cons] at hlen
      have hi : i < r.length := hr r (List.mem_cons_self ..)
      simp only [List.zip_cons_cons, List.map_cons, List.getElem?_set_self hi,
        Option.getD_some, List.cons.injEq, true_and]
      exact ih vs (by omega) (fun r' hr' => hr r' (List.mem_cons_of_mem _ hr'))

theorem zip_set_get_ne (rows : List (List Val)) (vals : List Val) (i j : Nat)
    (hij : i ≠ j) (hlen : rows.length ≤ vals.length) :
    ((rows.zip vals).map (fun p => p.1.set i p.2)).map (fun r => r[j]?.getD .na) =
      rows.map (fun r => r[j]?.getD .na) := by
  induction rows generalizing vals with
  | nil => rfl
  | cons r rs ih =>
    cases vals with
    | nil => simp at hlen
    | cons v vs =>
      simp only [List.length_cons] at hlen
      simp only [List.zip_cons_cons, List.map_cons, List.getElem?_set_ne hij,
        List.cons.injEq, true_and]
      exact ih vs (by omega)

theorem findIdx?_lt_length {l : List α} {p : α → Bool} {i : Nat}
    (h : l.findIdx? p = some i) : i < l.length :=
  (List.findIdx?_eq_some_iff_getElem.mp h).1

theorem getColumn_setColumn_self {df : DataFrame} {name : String} {i : Nat}
    {vals : List Val} (hWF : df.WF) (hidx : df.columns.findIdx? (· == name) = some i)
    (hlen : vals.length = df.rows.length) :
    (df.setColumn name vals).getColumn name = some vals := by
  have hi : i < df.columns.length := findIdx?_lt_length hidx
  unfold DataFrame.setColumn DataFrame.getColumn
  rw [hidx]
  simp only [hidx]
  rw [zip_set_get_self df.rows vals i hlen (fun r hr => (hWF r hr) ▸ hi)]

theorem getColumn_setColumn_ne {df : DataFrame} {name name' : String}
    {vals : List Val} (hne : name ≠ name') (hlen : df.rows.length ≤ vals.length) :
    (df.setColumn name vals).getColumn name' = df.getColumn name' := by
  unfold DataFrame.setColumn DataFrame.getColumn
  cases hidx : df.columns.findIdx? (· == name) with
  | none => rfl
  | some i =>
    simp only
    cases hidx' : df.columns.findIdx? (· == name') with
    | none => rfl
    | some j =>
      have hij : i ≠ j := by
        intro hij
        subst hij
        obtain ⟨hi, hpi, -⟩ := List.findIdx?_eq_some_iff_getElem.mp hidx
        obtain ⟨hj, hpj, -⟩ := List.findIdx?_eq_some_iff_getElem.mp hidx'
        rw [beq_iff_eq] at hpi hpj
        exact hne (hpi ▸ hpj)
      simp only [Option.some.injEq]
      exact zip_set_get_ne df.rows vals i j hij hlen

theorem setColumn_WF {df : DataFrame} {name : String} {vals : List Val}
    (hWF : df.WF) : (df.setColumn name vals).WF := by
  unfold DataFrame.setColumn
  cases df.columns.findIdx? (· == name) with
  | none => exact hWF
  | some i =>
    intro r hr
    simp only [List.mem_map] at hr
    obtain ⟨p, hp, rfl⟩ := hr
    have := hWF p.1 (List.of_mem_zip hp).1
    simpa using this

/-! ### Normalization-step lemmas -/

theorem fillHeatFlowStep_error {df : DataFrame} {mapping : List (String × String)} {e : PyError}
    (h : fillHeatFlowStep df mapping = .error e) : e = .keyError "heat_flow_rate" := by
  unfold fillHeatFlowStep at h
  by_cases hm : (mapping.map Prod.snd).contains "heat_flow_rate"
  · rw [if_pos hm] at h
    cases hcol : df.getColumn "heat_flow_rate" with
    | none => rw [hcol] at h; cases h; rfl
    | some col => rw [hcol] at h; cases h
  · rw [if_neg hm] at h; cases h

theorem fillHeatFlowStep_ok_columns {df d2 : DataFrame} {mapping : List (String × String)}
    (h : fillHeatFlowStep df mapping = .ok d2) : d2.columns = df.columns := by
  unfold fillHeatFlowStep at h
  by_cases hm : (mapping.map Prod.snd).contains "heat_flow_rate"
  · rw [if_pos hm] at h
    cases hcol : df.getColumn "heat_flow_rate" with
    | none => rw [hcol] at h; cases h
    | some col =>
      rw [hcol] at h
      cases h
      exact setColumn_columns ..
  · rw [if_neg hm] at h; cases h; rfl

theorem fillHeatFlowStep_ok_rows_length {df d2 : DataFrame} {mapping : List (String × String)}
    (h : fillHeatFlowStep df mapping = .ok d2) : d2.rows.length = df.rows.length := by
  unfold fillHeatFlowStep at h
  by_cases hm : (mapping.map Prod.snd).contains "heat_flow_rate"
  · rw [if_pos hm] at h
    cases hcol : df.getColumn "heat_flow_rate" with
    | none => rw [hcol] at h; cases h
    | some col =>
      rw [hcol] at h
      cases h
      exact setColumn_rows_length _ _ _ (by simp [getColumn_length hcol])
  · rw [if_neg hm] at h; cases h; rfl

theorem fillHeatFlowStep_ok_WF {df d2 : DataFrame} {mapping : List (String × String)}
    (hWF : df.WF) (h : fillHeatFlowStep df mapping = .ok d2) : d2.WF := by
  unfold fillHeatFlowStep at h
  by_cases hm : (mapping.map Prod.snd).contains "heat_flow_rate"
  · rw [if_pos hm] at h
    cases hcol : df.getColumn "heat_flow_rate" with
    | none => rw [hcol] at h; cases h
    | some col =>
      rw [hcol] at h
      cases h
      exact setColumn_WF hWF
  · rw [if_neg hm] at h; cases h; exact hWF

theorem fillOutdoorStep_ok {df d3 : DataFrame}
    (h : fillOutdoorStep df = .ok d3) :
    ∃ col, df.getColumn "outdoor_temperature" = some col ∧
      d3 = df.setColumn "outdoor_temperature" (ffillList col) := by
  unfold fillOutdoorStep at h
  cases hcol : df.getColumn "outdoor_temperature" with
  | none => rw [hcol] at h; cases h
  | some col =>
    rw [hcol] at h
    cases h
    exact ⟨col, rfl, rfl⟩

theorem fillOutdoorStep_ok_columns {df d3 : DataFrame}
    (h : fillOutdoorStep df = .ok d3) : d3.columns = df.columns := by
  obtain ⟨col, -, rfl⟩ := fillOutdoorStep_ok h
  exact setColumn_columns ..

theorem fillOutdoorStep_ok_rows_length {df d3 : DataFrame}
    (h : fillOutdoorStep df = .ok d3) : d3.rows.length = df.rows.length := by
  obtain ⟨col, hcol, rfl⟩ := fillOutdoorStep_ok h
  exact setColumn_rows_length _ _ _
    (by simp [ffillList_length, getColumn_length hcol])

theorem normalizeSteps_ok {df dfn : DataFrame} {mapping : List (String × String)}
    (h : normalizeSteps df mapping = .ok dfn) :
    ∃ d2, fillHeatFlowStep (renameDf df mapping) mapping = .ok d2 ∧
      fillOutdoorStep d2 = .ok dfn := by
  unfold normalizeSteps at h
  cases h2 : fillHeatFlowStep (renameDf df mapping) mapping with
  | error e => rw [h2] at h; cases h
  | ok d2 => rw [h2] at h; exact ⟨d2, rfl, h⟩

theorem normalizeSteps_ok_rows_length {df dfn : DataFrame} {mapping : List (String × String)}
    (h : normalizeSteps df mapping = .ok dfn) : dfn.rows.length = df.rows.length := by
  obtain ⟨d2, h2, h3⟩ := normalizeSteps_ok h
  rw [fillOutdoorStep_ok_rows_length h3, fillHeatFlowStep_ok_rows_length h2]
  rfl

theorem normalizeSteps_ok_columns {df dfn : DataFrame} {mapping : List (String × String)}
    (h : normalizeSteps df mapping = .ok dfn) : dfn.columns = (renameDf df mapping).columns := by
  obtain ⟨d2, h2, h3⟩ := normalizeSteps_ok h
  rw [fillOutdoorStep_ok_columns h3, fillHeatFlowStep_ok_columns h2]

/-! ### Encoding-loop lemmas -/

theorem encodeChunks_ok_lens {ref : String} {cols : List String} {db slug : String}
    {i0 : Nat} {cl : List (List (List Val))} {fs : List LPFile}
    (h : encodeChunks ref cols db slug i0 cl = .ok fs) :
    fs.map (fun f => f.lines.length) = cl.map List.length := by
  induction cl generalizing i0 fs with
  | nil => cases h; rfl
  | cons chunk rest ih =>
    unfold encodeChunks at h
    cases h1 : mapExcept (encodeRow ref cols) chunk with
    | error e => rw [h1] at h; cases h
    | ok ls =>
      rw [h1] at h
      cases h2 : encodeChunks ref cols db slug (i0 + 1) rest with
      | error e => rw [h2] at h; cases h
      | ok fs' =>
        rw [h2] at h
        cases h
        simp [mapExcept_ok_length h1, ih h2]

theorem encodeChunks_ok_flatten {ref : String} {cols : List String} {db slug : String}
    {i0 : Nat} {cl : List (List (List Val))} {fs : List LPFile}
    (h : encodeChunks ref cols db slug i0 cl = .ok fs) :
    mapExcept (encodeRow ref cols) cl.flatten = .ok (fs.map LPFile.lines).flatten := by
  induction cl generalizing i0 fs with
  | nil => cases h; rfl
  | cons chunk rest ih =>
    unfold encodeChunks at h
    cases h1 : mapExcept (encodeRow ref cols) chunk with
    | error e => rw [h1] at h; cases h
    | ok ls =>
      rw [h1] at h
      cases h2 : encodeChunks ref cols db slug (i0 + 1) rest with
      | error e => rw [h2] at h; cases h
      | ok fs' =>
        rw [h2] at h
        cases h
        simpa using mapExcept_append h1 (ih h2)

/-- Elimination of a successful `write_files` run into its stages. -/
theorem write_files_ok {db uuid : String} {df df' : DataFrame}
    {mapping : List (String × String)} {C : Nat} {slug : String} {files : List LPFile}
    (hok : write_files db uuid df mapping C slug = .ok (df', files)) :
    normalizeSteps df mapping = .ok df' ∧ C ≠ 0 ∧ df'.rows.length / C ≠ 0 ∧
      encodeChunks (lineRef db uuid) df'.columns db slug 0
        (splitBySizes df'.rows (npSplitSizes df'.rows.length (df'.rows.length / C))) =
        .ok files := by
  unfold write_files at hok
  split at hok
  · cases hok
  next df3 hn =>
    split at hok
    · cases hok
    next hC =>
      split at hok
      · cases hok
      next chunkList hsplit =>
        have hk : df3.rows.length / C ≠ 0 := by
          intro hk0
          rw [hk0, arraySplit_zero] at hsplit
          cases hsplit
        rw [arraySplit_pos hk] at hsplit
        cases hsplit
        split at hok
        · cases hok
        next fs he =>
          cases hok
          exact ⟨hn, hC, hk, he⟩

theorem getColumn_some_findIdx {df : DataFrame} {name : String} {col : List Val}
    (h : df.getColumn name = some col) :
    ∃ i, df.columns.findIdx? (· == name) = some i ∧
      col = df.rows.map (fun r => r[i]?.getD .na) := by
  unfold DataFrame.getColumn at h
  cases hidx : df.columns.findIdx? (· == name) with
  | none => rw [hidx] at h; cases h
  | some i => rw [hidx] at h; cases h; exact ⟨i, rfl, rfl⟩

theorem write_files_error_of_normalize {db uuid slug : String} {df : DataFrame}
    {mapping : List (String × String)} {C : Nat} {e : PyError}
    (hn : normalizeSteps df mapping = .error e) :
    write_files db uuid df mapping C slug = .error e := by
  unfold write_files
  rw [hn]

theorem write_files_small_table {db uuid slug : String} {df dfn : DataFrame}
    {mapping : List (String × String)} {C : Nat}
    (hlt : df.rows.length < C) (hn : normalizeSteps df mapping = .ok dfn) :
    write_files db uuid df mapping C slug =
      .error (.valueError "number sections must be larger than 0.") := by
  have hC : ¬ C = 0 := by omega
  have hR : dfn.rows.length = df.rows.length := normalizeSteps_ok_rows_length hn
  have hk : dfn.rows.length / C = 0 := Nat.div_eq_of_lt (hR ▸ hlt)
  unfold write_files
  rw [hn]
  simp only [if_neg hC, hk, arraySplit_zero]

/-! ### Character-splitting lemmas for the round-trip parse -/

theorem splitOnChar_ne_nil (sep : Char) (l : List Char) : splitOnChar sep l ≠ [] := by
  cases l with
  | nil => simp [splitOnChar]
  | cons a rest =>
    unfold splitOnChar
    cases splitOnChar sep rest with
    | nil => simp
    | cons g gs => by_cases h : a = sep <;> simp [h]

theorem splitOnChar_no_sep (sep : Char) (l : List Char) (h : sep ∉ l) :
    splitOnChar sep l = [l] := by
  induction l with
  | nil => rfl
  | cons a rest ih =>
    have ha : ¬ a = sep := fun hh => h (hh ▸ List.mem_cons_self ..)
    have hrest : sep ∉ rest := fun hh => h (List.mem_cons_of_mem _ hh)
    unfold splitOnChar
    rw [ih hrest]
    simp [ha]

theorem splitOnChar_cons (sep a : Char) (l : List Char) :
    splitOnChar sep (a :: l) =
      match splitOnChar sep l with
      | [] => [[]]
      | g :: gs => if a = sep then [] :: g :: gs else (a :: g) :: gs := rfl

theorem splitOnChar_append (sep : Char) (xs ys : List Char) (h : sep ∉ xs) :
    splitOnChar sep (xs ++ sep :: ys) = xs :: splitOnChar sep ys := by
  induction xs with
  | nil =>
    simp only [List.nil_append]
    rw [splitOnChar_cons]
    cases hys : splitOnChar sep ys with
    | nil => exact absurd hys (splitOnChar_ne_nil sep ys)
    | cons g gs => simp [← hys]
  | cons a xs ih =>
    have ha : ¬ a = sep := fun hh => h (hh ▸ List.mem_cons_self ..)
    have hxs : sep ∉ xs := fun hh => h (List.mem_cons_of_mem _ hh)
    simp only [List.cons_append]
    rw [splitOnChar_cons, ih hxs]
    simp [ha]

/-- The characters of a decimal digit are never delimiters. -/
theorem digitChar_not_delim (m : Nat) (hm : m < 10) :
    Nat.digitChar m ≠ ' ' ∧ Nat.digitChar m ≠ ',' ∧ Nat.digitChar m ≠ '=' := by
  interval_cases m <;> exact ⟨by decide, by decide, by decide⟩

theorem toDigitsCore_chars (fuel n : Nat) (ds : List Char) (c : Char)
    (h : c ∈ Nat.toDigitsCore 10 fuel n ds) :
    c ∈ ds ∨ ∃ m, m < 10 ∧ c = Nat.digitChar m := by
  induction fuel generalizing n ds with
  | zero => exact Or.inl h
  | succ fuel ih =>
    simp only [Nat.toDigitsCore] at h
    by_cases h0 : n / 10 = 0
    · rw [if_pos h0] at h
      rcases List.mem_cons.mp h with h | h
      · exact Or.inr ⟨n % 10, Nat.mod_lt _ (by norm_num), h⟩
      · exact Or.inl h
    · rw [if_neg h0] at h
      rcases ih _ _ h with h | h
      · rcases List.mem_cons.mp h with h | h
        · exact Or.inr ⟨n % 10, Nat.mod_lt _ (by norm_num), h⟩
        · exact Or.inl h
      · exact Or.inr h

/-- Decimal renderings of naturals contain no wire-format delimiter. -/
theorem repr_not_delim (n : Nat) (c : Char) (h : c ∈ (Nat.repr n).data) :
    c ≠ ' ' ∧ c ≠ ',' ∧ c ≠ '=' := by
  have hdig : c ∈ Nat.toDigitsCore 10 (n + 1) n [] := h
  rcases toDigitsCore_chars _ _ _ _ hdig with h' | ⟨m, hm, rfl⟩
  · simp at h'
  · exact digitChar_not_delim m hm

theorem mkData (s : String) : String.mk s.data = s := rfl

theorem joinSep_chars (sep : String) (ms : List String) (c : Char)
    (h : c ∈ (joinSep sep ms).data) :
    c ∈ sep.data ∨ ∃ m ∈ ms, c ∈ m.data := by
  induction ms with
  | nil => simp [joinSep] at h
  | cons m rest ih =>
    cases rest with
    | nil =>
      exact Or.inr ⟨m, List.mem_cons_self .., h⟩
    | cons m2 rest2 =>
      have hdef : joinSep sep (m :: m2 :: rest2) = m ++ sep ++ joinSep sep (m2 :: rest2) := rfl
      rw [hdef] at h
      simp only [String.data_append, List.mem_append] at h
      rcases h with (h | h) | h
      · exact Or.inr ⟨m, List.mem_cons_self .., h⟩
      · exact Or.inl h
      · rcases ih h with h' | ⟨m', hm', hc⟩
        · exact Or.inl h'
        · exact Or.inr ⟨m', List.mem_cons_of_mem _ hm', hc⟩

theorem splitOnChar_joinSep (c : Char) (sep : String) (hsep : sep.data = [c])
    (ms : List String) (hms : ms ≠ []) (h : ∀ m ∈ ms, c ∉ m.data) :
    splitOnChar c (joinSep sep ms).data = ms.map String.data := by
  induction ms with
  | nil => cases hms rfl
  | cons m rest ih =>
    cases rest with
    | nil =>
      show splitOnChar c m.data = [m.data]
      exact splitOnChar_no_sep c m.data (h m (List.mem_cons_self ..))
    | cons m2 rest2 =>
      have hdef : joinSep sep (m :: m2 :: rest2) = m ++ sep ++ joinSep sep (m2 :: rest2) := rfl
      rw [hdef]
      have hdata : (m ++ sep ++ joinSep sep (m2 :: rest2)).data =
          m.data ++ c :: (joinSep sep (m2 :: rest2)).data := by
        simp [String.data_append, hsep]
      rw [hdata, splitOnChar_append c _ _ (h m (List.mem_cons_self ..))]
      rw [ih (by simp) (fun m' hm' => h m' (List.mem_cons_of_mem _ hm'))]
      rfl

theorem filterMap_id_of_mem {l : List α} {h : α → Option α}
    (hl : ∀ a ∈ l, h a = some a) : l.filterMap h = l := by
  induction l with
  | nil => rfl
  | cons a rest ih =>
    rw [List.filterMap_cons, hl a (List.mem_cons_self ..),
      ih (fun a' ha' => hl a' (List.mem_cons_of_mem _ ha'))]

theorem parseFields_joinSep (ps : List (String × String))
    (hf : ∀ p ∈ ps, (∀ c ∈ p.1.data, c ≠ ',' ∧ c ≠ '=') ∧
      (∀ c ∈ p.2.data, c ≠ ',' ∧ c ≠ '=')) :
    parseFields (joinSep "," (ps.map (fun p => p.1 ++ "=" ++ p.2))).data = ps := by
  cases hps : ps with
  | nil => rfl
  | cons p rest =>
    subst hps
    have hnosep : ∀ m ∈ (p :: rest).map (fun p => p.1 ++ "=" ++ p.2), ',' ∉ m.data := by
      intro m hm hmem
      obtain ⟨q, hq, rfl⟩ := List.mem_map.mp hm
      simp only [String.data_append, List.mem_append] at hmem
      rcases hmem with (hmem | hmem) | hmem
      · exact ((hf q hq).1 ',' hmem).1 rfl
      · simp at hmem
      · exact ((hf q hq).2 ',' hmem).1 rfl
    unfold parseFields
    rw [splitOnChar_joinSep ',' "," rfl _ (by simp) hnosep, List.map_map]
    rw [List.filterMap_map]
    apply filterMap_id_of_mem
    intro q hq
    have hdata : ((fun p => p.1 ++ "=" ++ p.2) q).data = q.1.data ++ '=' :: q.2.data := by
      simp [String.data_append]
    simp only [Function.comp_apply, hdata]
    rw [splitOnChar_append '=' _ _ (fun hmem => ((hf q hq).1 '=' hmem).2 rfl),
      splitOnChar_no_sep '=' _ (fun hmem => ((hf q hq).2 '=' hmem).2 rfl)]

/-! ### Claim theorems -/

/-- C1: for every table of `R` rows and chunk size `C` with `R ≥ C`, a
successful `write_files` run produces exactly `R / C` output files, the files'
row counts sum to `R`, and encoding the normalized table's rows in their
original order yields exactly the concatenation of the files' lines in file
order — so the files hold contiguous partitions of the table, the file of
index `i` holding the `i`-th partition. -/
theorem write_files_chunk_count (db uuid slug : String) (df df' : DataFrame)
    (mapping : List (String × String)) (C : Nat) (files : List LPFile)
    (hC : 0 < C) (hRC : C ≤ df.rows.length)
    (hok : write_files db uuid df mapping C slug = .ok (df', files)) :
    files.length = df.rows.length / C ∧
    (files.map (fun f => f.lines.length)).sum = df.rows.length ∧
    df'.rows.length = df.rows.length ∧
    mapExcept (encodeRow (lineRef db uuid) df'.columns) df'.rows =
      .ok (files.map LPFile.lines).flatten := by
  obtain ⟨hn, hC0, hk, he⟩ := write_files_ok hok
  have hR : df'.rows.length = df.rows.length := normalizeSteps_ok_rows_length hn
  have hlens := encodeChunks_ok_lens he
  have hflat := encodeChunks_ok_flatten he
  have h1 : files.length = df'.rows.length / C := by
    have hlen2 := congrArg List.length hlens
    simp only [List.length_map] at hlen2
    rw [hlen2, splitBySizes_length, npSplitSizes_length _ _ hk]
  have hsum : (npSplitSizes df'.rows.length (df'.rows.length / C)).sum = df'.rows.length :=
    npSplitSizes_sum _ _
  have h2 : (files.map (fun f => f.lines.length)).sum = df'.rows.length := by
    rw [hlens, splitBySizes_map_length _ _ (le_of_eq hsum), hsum]
  have h3 : (splitBySizes df'.rows
      (npSplitSizes df'.rows.length (df'.rows.length / C))).flatten = df'.rows := by
    rw [splitBySizes_flatten, hsum, List.take_length]
  rw [h3] at hflat
  exact ⟨hR ▸ h1, hR ▸ h2, hR, hflat⟩

/-- C1 witness: the four-row table with chunk size 2 satisfies the hypotheses
and produces `4 / 2 = 2` files whose row counts sum to 4. -/
theorem write_files_chunk_count_witness :
    (0 < 2 ∧ 2 ≤ tbl4.rows.length ∧ run4 = .ok (out4, files4)) ∧
    files4.length = tbl4.rows.length / 2 ∧
    (files4.map (fun f => f.lines.length)).sum = tbl4.rows.length := by
  have h := write_files_chunk_count "otherm-data" "abc-123" "site1" tbl4 out4 map1 2 files4
    (by decide) (by decide) (by rfl)
  exact ⟨⟨by decide, by decide, by rfl⟩, h.1, h.2.1⟩

/-- C9: for every table of `R` rows and chunk size `C` with `R ≥ C`, with
`k = R / C`, the files' line counts are: `R % k` files of `R / k + 1` lines
followed by `k - R % k` files of `R / k` lines (so the first `R mod k`
partitions hold `ceil (R / k)` rows and the rest `floor (R / k)`), and every
file is non-empty. -/
theorem write_files_partition_policy (db uuid slug : String) (df df' : DataFrame)
    (mapping : List (String × String)) (C : Nat) (files : List LPFile)
    (hC : 0 < C) (hRC : C ≤ df.rows.length)
    (hok : write_files db uuid df mapping C slug = .ok (df', files)) :
    files.map (fun f => f.lines.length) =
      List.replicate (df.rows.length % (df.rows.length / C))
          (df.rows.length / (df.rows.length / C) + 1) ++
        List.replicate (df.rows.length / C - df.rows.length % (df.rows.length / C))
          (df.rows.length / (df.rows.length / C)) ∧
    ∀ f ∈ files, 0 < f.lines.length := by
  obtain ⟨hn, hC0, hk, he⟩ := write_files_ok hok
  have hR : df'.rows.length = df.rows.length := normalizeSteps_ok_rows_length hn
  have hlens := encodeChunks_ok_lens he
  have hsum : (npSplitSizes df'.rows.length (df'.rows.length / C)).sum = df'.rows.length :=
    npSplitSizes_sum _ _
  have hpolicy : files.map (fun f => f.lines.length) =
      npSplitSizes df'.rows.length (df'.rows.length / C) := by
    rw [hlens, splitBySizes_map_length _ _ (le_of_eq hsum)]
  refine ⟨by rw [hpolicy, hR]; rfl, ?_⟩
  intro f hf
  have hmem : f.lines.length ∈ npSplitSizes df'.rows.length (df'.rows.length / C) := by
    rw [← hpolicy]
    exact List.mem_map_of_mem _ hf
  have hone : 1 ≤ df'.rows.length / (df'.rows.length / C) := by
    rw [Nat.one_le_div_iff (Nat.pos_of_ne_zero hk)]
    exact Nat.div_le_self _ _
  rcases npSplitSizes_mem _ _ _ hmem with h | h <;> omega

/-- C9 witness: 15 rows with chunk size 8 give `k = 1` and a single file of all
15 rows — more than the chunk size, as the claim notes. -/
theorem write_files_partition_policy_witness :
    (0 < 8 ∧ 8 ≤ tbl15.rows.length ∧ run15 = .ok (out15, files15)) ∧
    files15.map (fun f => f.lines.length) =
      List.replicate (tbl15.rows.length % (tbl15.rows.length / 8))
          (tbl15.rows.length / (tbl15.rows.length / 8) + 1) ++
        List.replicate (tbl15.rows.length / 8 - tbl15.rows.length % (tbl15.rows.length / 8))
          (tbl15.rows.length / (tbl15.rows.length / 8)) ∧
    files15.map (fun f => f.lines.length) = [15] := by
  have h := write_files_partition_policy "otherm-data" "abc-123" "site9" tbl15 out15 map1 8
    files15 (by decide) (by decide) (by rfl)
  exact ⟨⟨by decide, by decide, by rfl⟩, h.1, by decide⟩

/-- C2 counterexample: at a concrete row the emitted line is the tag segment,
a space, the field segment, a space, the timestamp, a space, and the newline —
which differs from the claimed shape with no character between the timestamp
and the newline. -/
theorem line_extra_space_cex :
    encodeRow (lineRef "db" "u") colsEx rowEx = .ok "db,equipment=u a=1.5 1454768864 \n" ∧
    "db,equipment=u a=1.5 1454768864 \n" ≠
      "db,equipment=u" ++ " " ++ "a=1.5" ++ " " ++ "1454768864" ++ "\n" :=
  ⟨by rfl, by decide⟩

/-- C2 amended: every successfully encoded row's full line consists of the tag
segment, one space, the field segment, one space, the timestamp segment, one
further space, and a trailing newline (the `" ".join` treats the newline as a
fourth element, so a space precedes it). -/
theorem encodeRow_line_format (ref : String) (cols : List String) (row : List Val)
    (ts : String) (hts : tsOf cols row = .ok ts) :
    encodeRow ref cols row =
      .ok (ref ++ " " ++ fieldSegment cols row ++ " " ++ ts ++ " " ++ "\n") := by
  unfold encodeRow
  rw [hts]

/-- C2 witness: the format theorem applied to the concrete example row. -/
theorem encodeRow_line_format_witness :
    tsOf colsEx rowEx = .ok tsEx ∧
    encodeRow (lineRef "db" "u") colsEx rowEx =
      .ok (lineRef "db" "u" ++ " " ++ fieldSegment colsEx rowEx ++ " " ++ tsEx ++ " " ++ "\n") :=
  ⟨by rfl, encodeRow_line_format (lineRef "db" "u") colsEx rowEx tsEx (by rfl)⟩

/-- C3 counterexample: `write_files` mutates the caller's table — after the
concrete run the table's column names differ from what the caller passed in. -/
theorem write_files_mutates_cex :
    run4 = .ok (out4, files4) ∧ out4.columns ≠ tbl4.columns :=
  ⟨by rfl, by decide⟩

/-- C3 amended: the rename-and-normalize step is **not** pure: `write_files`
renames and fills the caller's table in place, so after a successful call the
caller's table holds exactly the renamed-and-filled (normalized) table. -/
theorem write_files_final_state (db uuid slug : String) (df df' : DataFrame)
    (mapping : List (String × String)) (C : Nat) (files : List LPFile)
    (hok : write_files db uuid df mapping C slug = .ok (df', files)) :
    normalizeSteps df mapping = .ok df' :=
  (write_files_ok hok).1

/-- C3 witness: the concrete run's final table state is the normalized table. -/
theorem write_files_final_state_witness :
    run4 = .ok (out4, files4) ∧ normalizeSteps tbl4 map1 = .ok out4 :=
  ⟨by rfl, write_files_final_state "otherm-data" "abc-123" "site1" tbl4 out4 map1 2 files4
    (by rfl)⟩

/-- C5: when the (normalizable) table has fewer rows than the chunk size, the
computed chunk count is 0 and `write_files` fails with numpy's zero-section
`ValueError` — the division-by-zero-equivalent condition — before any output
file is produced (an error result carries no files). -/
theorem write_files_divide_error (db uuid slug : String) (df dfn : DataFrame)
    (mapping : List (String × String)) (C : Nat)
    (hlt : df.rows.length < C) (hn : normalizeSteps df mapping = .ok dfn) :
    write_files db uuid df mapping C slug =
      .error (.valueError "number sections must be larger than 0.") :=
  write_files_small_table hlt hn

/-- C5 witness: the one-row table with chunk size 2. -/
theorem write_files_divide_error_witness :
    tbl1.rows.length < 2 ∧ normalizeSteps tbl1 map1 = .ok out1n ∧
    write_files "otherm-data" "abc-123" tbl1 map1 2 "site1" =
      .error (.valueError "number sections must be larger than 0.") :=
  ⟨by decide, by rfl,
    write_files_divide_error "otherm-data" "abc-123" "site1" tbl1 out1n map1 2
      (by decide) (by rfl)⟩

/-- C6 counterexample: a table with fewer rows than the chunk size makes the
concrete `write_files` run raise an error — it does crash, and no warning is
reported — contradicting the claim that it yields zero files without a crash. -/
theorem small_table_crashes_cex :
    write_files "otherm-data" "abc-123" tbl1 map1 2 "site1" =
      .error (.valueError "number sections must be larger than 0.") :=
  by rfl

/-- C6 amended: a table with `R < C` rows makes `write_files` fail with the
zero-section error rather than returning: it yields no output files (the run
has no `.ok` result) and reports no warning. -/
theorem small_table_no_files (db uuid slug : String) (df dfn : DataFrame)
    (mapping : List (String × String)) (C : Nat)
    (hlt : df.rows.length < C) (hn : normalizeSteps df mapping = .ok dfn) :
    write_files db uuid df mapping C slug =
      .error (.valueError "number sections must be larger than 0.") ∧
    (write_files db uuid df mapping C slug).toOption = none := by
  have h := @write_files_small_table db uuid slug df dfn mapping C hlt hn
  exact ⟨h, by rw [h]; rfl⟩

/-- C6 witness: the amended statement at the one-row table. -/
theorem small_table_no_files_witness :
    tbl1.rows.length < 2 ∧
    (write_files "otherm-data" "abc-123" tbl1 map1 2 "site1").toOption = none :=
  ⟨by decide,
    (small_table_no_files "otherm-data" "abc-123" "site1" tbl1 out1n map1 2
      (by decide) (by rfl)).2⟩

/-- C10: a table that after renaming has no `outdoor_temperature` column makes
`write_files` raise a `KeyError` (either at the unconditional forward-fill
access, or already at the guarded `heat_flow_rate` fill), and an error result
carries no output files. -/
theorem write_files_missing_outdoor (db uuid slug : String) (df : DataFrame)
    (mapping : List (String × String)) (C : Nat)
    (h : (renameDf df mapping).getColumn "outdoor_temperature" = none) :
    write_files db uuid df mapping C slug = .error (.keyError "heat_flow_rate") ∨
    write_files db uuid df mapping C slug = .error (.keyError "outdoor_temperature") := by
  have hnorm : normalizeSteps df mapping = .error (.keyError "heat_flow_rate") ∨
      normalizeSteps df mapping = .error (.keyError "outdoor_temperature") := by
    unfold normalizeSteps
    cases h2 : fillHeatFlowStep (renameDf df mapping) mapping with
    | error e2 =>
      left
      have he2 := fillHeatFlowStep_error h2
      subst he2
      rfl
    | ok d2 =>
      right
      have hcols : d2.columns = (renameDf df mapping).columns := fillHeatFlowStep_ok_columns h2
      have h3 : d2.getColumn "outdoor_temperature" = none := by
        rw [getColumn_none_iff] at h ⊢
        rw [hcols]
        exact h
      simp [fillOutdoorStep, h3]
  rcases hnorm with hn | hn
  · exact Or.inl (write_files_error_of_normalize hn)
  · exact Or.inr (write_files_error_of_normalize hn)

/-- C10 witness: the table without an `outdoor_temperature` column. -/
theorem write_files_missing_outdoor_witness :
    (renameDf tblNoOut map1).getColumn "outdoor_temperature" = none ∧
    (write_files "otherm-data" "abc-123" tblNoOut map1 2 "site1" =
        .error (.keyError "heat_flow_rate") ∨
      write_files "otherm-data" "abc-123" tblNoOut map1 2 "site1" =
        .error (.keyError "outdoor_temperature")) :=
  ⟨by decide,
    write_files_missing_outdoor "otherm-data" "abc-123" "site1" tblNoOut map1 2 (by decide)⟩

/-- C4: the `outdoor_temperature` fill is a forward fill: in the filled column
every missing value with at least one non-missing predecessor takes its most
recent preceding non-missing value, and every missing value in the leading run
stays missing. -/
theorem outdoor_ffill_property (df df' : DataFrame) (col : List Val)
    (hWF : df.WF) (hcol : df.getColumn "outdoor_temperature" = some col)
    (hok : fillOutdoorStep df = .ok df') :
    df'.getColumn "outdoor_temperature" = some (ffillList col) ∧
    ∀ i, i < col.length → col.getD i .na = .na →
      ((∀ j, j < i → col.getD j .na = .na) → (ffillList col).getD i .na = .na) ∧
      (∀ j, j < i → col.getD j .na ≠ .na →
        (∀ m, j < m → m < i → col.getD m .na = .na) →
        (ffillList col).getD i .na = col.getD j .na) := by
  constructor
  · obtain ⟨col2, hcol2, hdf'⟩ := fillOutdoorStep_ok hok
    have hc : col2 = col := Option.some.inj (hcol2.symm.trans hcol)
    subst hc
    subst hdf'
    obtain ⟨i, hidx, -⟩ := getColumn_some_findIdx hcol
    have hlen : (ffillList col2).length = df.rows.length := by
      rw [ffillList_length, getColumn_length hcol]
    exact getColumn_setColumn_self hWF hidx hlen
  · intro i hi hna
    exact ⟨ffillList_leading_na col i hi hna,
      fun j hj hjval hmid => ffillList_most_recent col i j hi hna hj hjval hmid⟩

/-- C4 witness: the spec's example column `[NaN, 5.0, NaN, 7.0]` normalizes to
`[NaN, 5.0, 5.0, 7.0]`. -/
theorem outdoor_ffill_property_witness :
    tblFfx.WF ∧ tblFfx.getColumn "outdoor_temperature" = some colFfx ∧
    fillOutdoorStep tblFfx = .ok outFfx ∧
    outFfx.getColumn "outdoor_temperature" = some (ffillList colFfx) ∧
    ffillList colFfx = [.na, .str "5.0", .str "5.0", .str "7.0"] := by
  have h := outdoor_ffill_property tblFfx outFfx colFfx (by decide) (by decide) (by rfl)
  exact ⟨by decide, by decide, by rfl, h.1, by decide⟩

/-- C7: when `heat_flow_rate` is among the mapping's target names, the
normalized table's `heat_flow_rate` column is the zero-filled original (every
missing value becomes the zero value, every other value is kept); when it is
not among the target names, the column (if present) passes through the
normalization unchanged. -/
theorem heat_flow_fill_property (df dfn : DataFrame) (mapping : List (String × String))
    (col : List Val) (hWF : (renameDf df mapping).WF)
    (hok : normalizeSteps df mapping = .ok dfn) :
    (("heat_flow_rate" ∈ mapping.map Prod.snd) →
      (renameDf df mapping).getColumn "heat_flow_rate" = some col →
      dfn.getColumn "heat_flow_rate" = some (col.map fillnaZero) ∧
      ∀ i, i < col.length →
        (col.map fillnaZero).getD i .na =
          (if col.getD i .na = .na then zeroVal else col.getD i .na)) ∧
    (("heat_flow_rate" ∉ mapping.map Prod.snd) →
      dfn.getColumn "heat_flow_rate" = (renameDf df mapping).getColumn "heat_flow_rate") := by
  obtain ⟨d2, h2, h3⟩ := normalizeSteps_ok hok
  obtain ⟨ocol, hocol, hdfn⟩ := fillOutdoorStep_ok h3
  have hne : ("outdoor_temperature" : String) ≠ "heat_flow_rate" := by decide
  have hlen2 : d2.rows.length ≤ (ffillList ocol).length := by
    rw [ffillList_length, getColumn_length hocol]
  have hpass : dfn.getColumn "heat_flow_rate" = d2.getColumn "heat_flow_rate" := by
    rw [hdfn]
    exact getColumn_setColumn_ne hne hlen2
  constructor
  · intro hmem hcol
    have hguard : (mapping.map Prod.snd).contains "heat_flow_rate" = true := by
      simpa using hmem
    unfold fillHeatFlowStep at h2
    rw [if_pos hguard, hcol] at h2
    have hd2 : d2 =
        (renameDf df mapping).setColumn "heat_flow_rate" (col.map fillnaZero) :=
      (Except.ok.inj h2).symm
    obtain ⟨i, hidx, -⟩ := getColumn_some_findIdx hcol
    have hlen : (col.map fillnaZero).length = (renameDf df mapping).rows.length := by
      rw [List.length_map, getColumn_length hcol]
    constructor
    · rw [hpass, hd2]
      exact getColumn_setColumn_self hWF hidx hlen
    · intro i0 hi0
      rw [List.getD_eq_getElem _ _ (by simpa using hi0), List.getD_eq_getElem _ _ hi0,
        List.getElem_map]
      rfl
  · intro hmem
    have hguard : ¬ (mapping.map Prod.snd).contains "heat_flow_rate" = true := by
      simpa using hmem
    unfold fillHeatFlowStep at h2
    rw [if_neg hguard] at h2
    have hd2 : d2 = renameDf df mapping := (Except.ok.inj h2).symm
    rw [hpass, hd2]

/-- C7 witness: a table whose `heat_flow_1` column maps to `heat_flow_rate`,
with one missing value, which the normalization fills with the zero value. -/
theorem heat_flow_fill_property_witness :
    (renameDf tblHf mapHf).WF ∧
    normalizeSteps tblHf mapHf = .ok outHf ∧
    outHf.getColumn "heat_flow_rate" = some (colHf.map fillnaZero) ∧
    colHf.map fillnaZero = [.str "0.0", .str "3.5"] := by
  have h := heat_flow_fill_property tblHf outHf mapHf colHf (by decide) (by rfl)
  exact ⟨by decide, by rfl, (h.1 (by decide) (by decide)).1, by decide⟩

/-- C8 counterexample: a field value containing a space collides with the wire
format's delimiter, and parsing the generated line no longer recovers the row
(the parse fails outright), so the unconditional round-trip claim is false. -/
theorem lineProtocol_roundtrip_cex :
    encodeRow (lineRef "db" "u") colsEx rowBad = .ok lineBad ∧
    lineBad = "db,equipment=u a=1 2 5 \n" ∧
    parseLP lineBad = none :=
  ⟨by rfl, by rfl, by rfl⟩

/-- C8 amended: for every row whose database name, uuid, field names, and
rendered field values are free of the wire format's delimiters (space, comma,
equals), parsing the generated line recovers the database name, the equipment
tag value, the `(name, value-string)` pairs of all non-`created` columns in
order, and the decimal rendering of the `created` value truncated to whole
epoch seconds. -/
theorem lineProtocol_roundtrip (db uuid : String) (cols : List String) (row : List Val)
    (ci t : Nat) (line : String)
    (hci : cols.findIdx? (· == "created") = some ci)
    (hcell : row[ci]? = some (.time t))
    (hdb : ∀ c ∈ db.data, c ≠ ' ' ∧ c ≠ ',')
    (hu : ∀ c ∈ uuid.data, c ≠ ' ' ∧ c ≠ ',' ∧ c ≠ '=')
    (hf : ∀ p ∈ fieldPairs cols row,
      (∀ c ∈ p.1.data, c ≠ ' ' ∧ c ≠ ',' ∧ c ≠ '=') ∧
      (∀ c ∈ p.2.data, c ≠ ' ' ∧ c ≠ ',' ∧ c ≠ '='))
    (hline : encodeRow (lineRef db uuid) cols row = .ok line) :
    parseLP line = some (db, uuid, fieldPairs cols row, Nat.repr (t / 1000000)) := by
  have hts : tsOf cols row = .ok (Nat.repr (t / 1000000)) := by
    unfold tsOf
    rw [hci]
    simp only [hcell]
  have hlineq : line = lineRef db uuid ++ " " ++ fieldSegment cols row ++ " " ++
      Nat.repr (t / 1000000) ++ " " ++ "\n" := by
    unfold encodeRow at hline
    rw [hts] at hline
    exact (Except.ok.inj hline).symm
  subst hlineq
  have hsp : (" " : String).data = [' '] := rfl
  have hnl : ("\n" : String).data = ['\n'] := rfl
  have hdata : (lineRef db uuid ++ " " ++ fieldSegment cols row ++ " " ++
      Nat.repr (t / 1000000) ++ " " ++ "\n").data =
      (lineRef db uuid).data ++ ' ' :: ((fieldSegment cols row).data ++ ' ' ::
        ((Nat.repr (t / 1000000)).data ++ ' ' :: ['\n'])) := by
    simp [String.data_append, hsp, hnl]
  have hrefdata : (lineRef db uuid).data =
      db.data ++ ',' :: ("equipment".data ++ '=' :: uuid.data) := by
    unfold lineRef
    have hc : ("," : String).data = [','] := rfl
    have he : ("=" : String).data = ['='] := rfl
    simp [String.data_append, hc, he]
  have href_space : ' ' ∉ (lineRef db uuid).data := by
    rw [hrefdata]
    intro hmem
    rcases List.mem_append.mp hmem with h1 | h2
    · exact (hdb ' ' h1).1 rfl
    · rcases List.mem_cons.mp h2 with h2 | h2
      · cases h2
      · rcases List.mem_append.mp h2 with h3 | h3
        · revert h3; decide
        · rcases List.mem_cons.mp h3 with h3 | h3
          · cases h3
          · exact (hu ' ' h3).1 rfl
  have hfs_space : ' ' ∉ (fieldSegment cols row).data := by
    intro hmem
    unfold fieldSegment at hmem
    rcases joinSep_chars _ _ _ hmem with h1 | ⟨m, hm, hc⟩
    · revert h1; decide
    · obtain ⟨q, hq, rfl⟩ := List.mem_map.mp hm
      simp only [String.data_append, List.mem_append] at hc
      rcases hc with (hc | hc) | hc
      · exact ((hf q hq).1 ' ' hc).1 rfl
      · revert hc; decide
      · exact ((hf q hq).2 ' ' hc).1 rfl
  have hts_space : ' ' ∉ (Nat.repr (t / 1000000)).data :=
    fun hmem => (repr_not_delim _ ' ' hmem).1 rfl
  have hsplit : splitOnChar ' ' (lineRef db uuid ++ " " ++ fieldSegment cols row ++ " " ++
      Nat.repr (t / 1000000) ++ " " ++ "\n").data =
      [(lineRef db uuid).data, (fieldSegment cols row).data,
        (Nat.repr (t / 1000000)).data, ['\n']] := by
    rw [hdata, splitOnChar_append ' ' _ _ href_space, splitOnChar_append ' ' _ _ hfs_space,
      splitOnChar_append ' ' _ _ hts_space, splitOnChar_no_sep ' ' ['\n'] (by decide)]
  have htag : splitOnChar ',' (lineRef db uuid).data =
      [db.data, "equipment".data ++ '=' :: uuid.data] := by
    rw [hrefdata, splitOnChar_append ',' _ _ (fun hmem => (hdb ',' hmem).2 rfl)]
    rw [splitOnChar_no_sep ',' _ ?hcom]
    case hcom =>
      intro hmem
      rcases List.mem_append.mp hmem with h1 | h2
      · revert h1; decide
      · rcases List.mem_cons.mp h2 with h2 | h2
        · cases h2
        · exact (hu ',' h2).2.1 rfl
  have heq : splitOnChar '=' ("equipment".data ++ '=' :: uuid.data) =
      ["equipment".data, uuid.data] := by
    rw [splitOnChar_append '=' _ _ (by decide),
      splitOnChar_no_sep '=' _ (fun hmem => (hu '=' hmem).2.2 rfl)]
  have hfields : parseFields (fieldSegment cols row).data = fieldPairs cols row := by
    unfold fieldSegment
    exact parseFields_joinSep _ (fun p hp =>
      ⟨fun c hc => ⟨((hf p hp).1 c hc).2.1, ((hf p hp).1 c hc).2.2⟩,
       fun c hc => ⟨((hf p hp).2 c hc).2.1, ((hf p hp).2 c hc).2.2⟩⟩)
  unfold parseLP
  rw [hsplit]
  simp only [htag, heq, hfields, mkData, eq_self_iff_true, if_true]

/-- C8 witness: the round trip at a clean concrete row: the parse recovers the
database name, the uuid, the field pair, and the truncated epoch seconds. -/
theorem lineProtocol_roundtrip_witness :
    encodeRow (lineRef "otherm-data" "abc-123") colsEx rowEx = .ok lineOt ∧
    parseLP lineOt = some ("otherm-data", "abc-123", fieldPairs colsEx rowEx,
      Nat.repr (1454768864000000 / 1000000)) ∧
    fieldPairs colsEx rowEx = [("a", "1.5")] ∧
    Nat.repr (1454768864000000 / 1000000) = "1454768864" := by
  refine ⟨by rfl, ?_, by rfl, by rfl⟩
  exact lineProtocol_roundtrip "otherm-data" "abc-123" colsEx rowEx 1 1454768864000000
    lineOt (by rfl) (by rfl) (by decide) (by decide) (by decide) (by rfl)

end GshpInflux
